import Mathlib

/-!
Verification development for the IBKR equity execution engine
(`IBKR_execution.py`): a shallow embedding of the engine's data model,
order classifiers, kill switch, entry gates and position manager, together
with theorems settling the specification's claims about them.

Modelling conventions:
* Python floats are modelled as exact rationals (`ℚ`).
* Share quantities (`int(p.position)`, `entry_qty`, ...) are `Int`.
* Broker reads (`ib.positions()`, `ib.trades()`, `accountSummary()`,
  mark-price snapshots, the PnL subscription) are inputs of the model: a
  run receives the snapshots it would observe.
* `ib.placeOrder` appends the new order to the broker's trade list; the
  model records it with the working status `"Submitted"` (the engine's own
  operating assumption once the ack has arrived) and tracks its submit
  time, exactly as `_track_trade` does.
-/

namespace IBKRExec

/-- Broker order, with the fields the engine reads or sets
(`ib_insync.Order`). `lmtPrice` is `none` for orders carrying no price
field (market orders). -/
structure Order where
  action : String
  orderType : String
  totalQuantity : Int
  lmtPrice : Option ℚ := none
  auxPrice : Option ℚ := none
  trailingPercent : Option ℚ := none
  tif : Option String := none
  outsideRth : Bool := false
deriving Repr, DecidableEq

/-- Broker trade record: an order together with its id, lifecycle status
string and the contract's `conId`. -/
structure Trade where
  orderId : Nat
  conId : Int
  status : String
  order : Order
deriving Repr, DecidableEq

/-- Broker stock position as read from `ib.positions()`: `position` is the
(truncated) share count, `avgCost` the per-share cost basis. -/
structure Position where
  conId : Int
  position : Int
  avgCost : ℚ
deriving Repr, DecidableEq

/-- Row of the `stock_execution_signals_5m` table. `con_id = none` models
a value that `_safe_int` cannot coerce to an integer. -/
structure SignalRow where
  symbol : String
  timestamp : Int
  trade_signal : Bool
  con_id : Option Int
deriving Repr, DecidableEq

/-- Account-summary row: `value = none` models a row whose value is empty
or fails numeric coercion (the `float(...)` call raising). -/
structure AcctRow where
  tag : String
  value : Option ℚ
deriving Repr, DecidableEq

/-- The `RiskConfig` dataclass. -/
structure RiskConfig where
  per_trade_risk_pct : ℚ := 5 / 1000
  per_day_risk_pct : ℚ := 1 / 100
  max_open_orders : Nat := 3
  min_order_age_seconds : Int := 60 * 60
  trail_pct : ℚ := 2 / 100
  trail_tif : String := "GTC"
  entry_qty : Int := 2
  preflight_stop_pct : ℚ := 4 / 100
deriving Repr, DecidableEq

/-- Per-run counters (`_reset_stats`). -/
structure RunStats where
  signal : Nat := 0
  entry : Nat := 0
  be : Nat := 0
  tp1 : Nat := 0
  trail_ensure : Nat := 0
  skips_no_price : Nat := 0
  errs : Nat := 0
deriving Repr, DecidableEq

/-- Engine construction parameters (`IBKREquityExecutionEngine.__init__`). -/
structure Engine where
  risk : RiskConfig := {}
  execute_trades_default : Bool := true
  allow_exits_when_killed : Bool := true
deriving Repr, DecidableEq

/-- The working statuses `{"Submitted", "PreSubmitted", "ApiPending"}`. -/
def isWorkingStatus (s : String) : Bool :=
  s == "Submitted" || s == "PreSubmitted" || s == "ApiPending"

/-- Python's `round` ties-to-even on the integers. -/
def round_half_even (x : ℚ) : ℤ :=
  let f := ⌊x⌋
  let r := x - (f : ℚ)
  if r < 1 / 2 then f
  else if 1 / 2 < r then f + 1
  else if f % 2 = 0 then f else f + 1

/-- Python's `round(x, 2)`: round to cent precision, ties to even. -/
def py_round2 (x : ℚ) : ℚ := (round_half_even (x * 100) : ℚ) / 100

/-- Outcome of one of the `place_*` helpers: an order handed to
`ib.placeOrder`, a skip because no price was available
(`_inc("skips_no_price")` fires), or a skip because `allow` was false. -/
inductive PlaceResult where
  | placed (o : Order)
  | skip_no_price
  | skip_allow
deriving Repr, DecidableEq

/-- The engine-side mutable state a run threads through its broker calls:
the broker trade list, the next broker order id, the engine's local
`order_submit_time` map, the current time, the per-run counters, and the
orders this run has handed to `ib.placeOrder` (with their conId). -/
structure PMState where
  trades : List Trade
  nextId : Nat
  submitTimes : List (Nat × Int)
  now : Int
  stats : RunStats
  submitted : List (Int × Order)
deriving Repr, DecidableEq

/-- Effect of `ib.placeOrder` followed by `_track_trade`: the trade joins
the broker's trade list as a working order and its submit time is
recorded. -/
def submit (s : PMState) (conid : Int) (o : Order) : PMState :=
  { s with
    trades := s.trades ++ [{ orderId := s.nextId, conId := conid,
                             status := "Submitted", order := o }],
    nextId := s.nextId + 1,
    submitTimes := (s.nextId, s.now) :: s.submitTimes,
    submitted := s.submitted ++ [(conid, o)] }

/-- Apply a `PlaceResult` to the run state: a placed order is submitted, a
no-price skip increments the `skips_no_price` counter, an allow-skip does
nothing. -/
def apply_place (s : PMState) (conid : Int) (r : PlaceResult) : PMState :=
  match r with
  | .placed o => submit s conid o
  | .skip_no_price =>
      { s with stats := { s.stats with skips_no_price := s.stats.skips_no_price + 1 } }
  | .skip_allow => s

/-- The `place_market_sell` helper (always a plain market sell). -/
def place_market_sell (qty : Int) (allow : Bool) : PlaceResult :=
  if allow then .placed { action := "SELL", orderType := "MKT", totalQuantity := qty }
  else .skip_allow

/-- The `place_trailing_stop` helper: a SELL TRAIL order at
`trail_pct * 100` trailing percent with the configured time-in-force. -/
def place_trailing_stop (cfg : RiskConfig) (qty : Int) (allow : Bool) : PlaceResult :=
  if allow then
    .placed { action := "SELL", orderType := "TRAIL", totalQuantity := qty,
              trailingPercent := some (cfg.trail_pct * 100),
              tif := some cfg.trail_tif }
  else .skip_allow

/-- The `place_buy_entry` helper. During RTH a market BUY; outside RTH a
limit BUY at `round(mark * 1.002, 2)` flagged `outsideRth`, skipped when
the mark price does not resolve to a positive value. -/
def place_buy_entry (is_rth : Bool) (mark : Option ℚ) (qty : Int)
    (allow : Bool) : PlaceResult :=
  if !allow then .skip_allow
  else if is_rth then
    .placed { action := "BUY", orderType := "MKT", totalQuantity := qty }
  else
    match mark with
    | none => .skip_no_price
    | some px =>
        if px ≤ 0 then .skip_no_price
        else
          .placed { action := "BUY", orderType := "LMT", totalQuantity := qty,
                    lmtPrice := some (py_round2 (px * (1002 / 1000))),
                    outsideRth := true }

/-- The `place_sell_scaleout_1` helper. During RTH a market SELL of one
share; outside RTH a limit SELL of one share at `round(mark * 0.998, 2)`
flagged `outsideRth`, skipped when the mark does not resolve. -/
def place_sell_scaleout_1 (is_rth : Bool) (mark : Option ℚ)
    (allow : Bool) : PlaceResult :=
  if !allow then .skip_allow
  else if is_rth then
    .placed { action := "SELL", orderType := "MKT", totalQuantity := 1 }
  else
    match mark with
    | none => .skip_no_price
    | some px =>
        if px ≤ 0 then .skip_no_price
        else
          .placed { action := "SELL", orderType := "LMT", totalQuantity := 1,
                    lmtPrice := some (py_round2 (px * (998 / 1000))),
                    outsideRth := true }

/-- The `place_breakeven_stop` helper: a SELL STP at the given stop price,
active outside RTH. -/
def place_breakeven_stop (qty : Int) (stop_price : ℚ) (allow : Bool) : PlaceResult :=
  if allow then
    .placed { action := "SELL", orderType := "STP", totalQuantity := qty,
              auxPrice := some stop_price, outsideRth := true }
  else .skip_allow

/-- The `_is_entry_order_trade` classifier: true only for entry orders —
excludes TRAIL orders and anything that is not a BUY. -/
def _is_entry_order_trade (t : Trade) : Bool :=
  if t.order.orderType == "TRAIL" then false
  else if !(t.order.action == "BUY") then false
  else true

/-- The `_open_trades_for_conid` helper: working trades on one conId. -/
def _open_trades_for_conid (trades : List Trade) (conid : Int) : List Trade :=
  trades.filter (fun t => t.conId == conid && isWorkingStatus t.status)

/-- The `_has_working_breakeven_stop` classifier: any working SELL
STP/STOP order on the conId. -/
def _has_working_breakeven_stop (trades : List Trade) (conid : Int) : Bool :=
  (_open_trades_for_conid trades conid).any fun t =>
    t.order.action == "SELL" &&
      (t.order.orderType == "STP" || t.order.orderType == "STOP")

/-- The `_has_working_scaleout_sell` classifier: any working SELL MKT/LMT
order on the conId. -/
def _has_working_scaleout_sell (trades : List Trade) (conid : Int) : Bool :=
  (_open_trades_for_conid trades conid).any fun t =>
    t.order.action == "SELL" &&
      (t.order.orderType == "MKT" || t.order.orderType == "LMT")

/-- The `_has_working_trailing_sell` classifier: any working SELL TRAIL
order on the conId (scans the full trade list directly). -/
def _has_working_trailing_sell (trades : List Trade) (conid : Int) : Bool :=
  trades.any fun t =>
    isWorkingStatus t.status && t.order.orderType == "TRAIL" &&
      t.order.action == "SELL" && t.conId == conid

/-- The `_already_long_conid` helper: any position on the conId with
positive quantity. -/
def _already_long_conid (positions : List Position) (conid : Int) : Bool :=
  positions.any fun p => p.conId == conid && decide (0 < p.position)

/-- The `_entry_from_position` helper: the per-share cost basis when it is
positive, otherwise `none`. -/
def _entry_from_position (p : Position) : Option ℚ :=
  if 0 < p.avgCost then some p.avgCost else none

/-- The `close_all_stock_positions` helper: if exits are allowed, a market
sell for every position with quantity > 0, in position order; otherwise
nothing. -/
def close_all_stock_positions (positions : List Position) (allow : Bool) :
    List (Int × Order) :=
  if !allow then []
  else
    positions.filterMap fun (p : Position) =>
      if (0 : Int) < p.position then
        match place_market_sell p.position true with
        | .placed o => some (p.conId, o)
        | _ => none
      else none

/-- The `enforce_daily_loss_killswitch` method: unmeasurable PnL fails
open; PnL ≤ -maxDayRisk liquidates (when exits allowed) and denies
entries; otherwise entries stay allowed and nothing is submitted. Returns
(`allow entries`, submitted liquidation orders). -/
def enforce_daily_loss_killswitch (daily_pnl : Option ℚ)
    (positions : List Position) (max_day_risk : ℚ) (allow_exits : Bool) :
    Bool × List (Int × Order) :=
  match daily_pnl with
  | none => (true, [])
  | some pnl =>
      if pnl ≤ -max_day_risk then
        (false, close_all_stock_positions positions allow_exits)
      else (true, [])

/-- Accumulator of `ORDER BY timestamp DESC LIMIT 1`: keep the row with
the maximal timestamp (the first seen on ties). -/
def latest_upd (acc : Option SignalRow) (r : SignalRow) : Option SignalRow :=
  match acc with
  | none => some r
  | some b => if b.timestamp < r.timestamp then some r else some b

/-- The `load_latest_signal` query:
`WHERE symbol = ? AND trade_signal = TRUE ORDER BY timestamp DESC LIMIT 1`
— the most recent row among those with `trade_signal = TRUE`. -/
def load_latest_signal (store : List SignalRow) (symbol : String) :
    Option SignalRow :=
  (store.filter fun r => r.symbol == symbol && r.trade_signal).foldl
    latest_upd none

/-- Modelled from the spec: "the engine reads only the most recent row per
symbol" — the most recent signal row for the symbol with no condition on
`trade_signal`. Used to compare the spec's reading rule with the code's
`load_latest_signal`. -/
def latest_row_for_symbol (store : List SignalRow) (symbol : String) :
    Option SignalRow :=
  (store.filter fun r => r.symbol == symbol).foldl latest_upd none

/-- Per-position return percentage with the position manager's skip rules:
`none` when the cost basis is unusable or the mark price does not resolve
to a positive value; otherwise `(mark - entry) / entry * 100`. -/
def pm_ret_pct (marks : Int → Option ℚ) (p : Position) : Option ℚ :=
  match _entry_from_position p with
  | none => none
  | some entry =>
      match marks p.conId with
      | none => none
      | some mark =>
          if mark ≤ 0 then none
          else some ((mark - entry) / entry * 100)

/-- One guarded action of the position manager: when `fire` holds, bump
the trigger counter and apply the placement result; otherwise leave the
state unchanged. -/
def pm_branch (fire : Bool) (incStat : RunStats → RunStats)
    (conid : Int) (pr : PlaceResult) (s : PMState) : PMState :=
  if fire then apply_place { s with stats := incStat s.stats } conid pr else s

/-- Loop body of the position-management pass in `run` for one position:
skip non-long positions and positions without entry or mark; then the
breakeven-stop action (+0.5 %), the scale-out action (+1.0 %, quantity ≥ 2)
and the trailing-stop safety net, each guarded by its classifier, executed
in source order against the evolving trade list. -/
def pm_position_step (cfg : RiskConfig) (marks : Int → Option ℚ)
    (is_rth : Bool) (allow_exits : Bool) (s : PMState) (p : Position) : PMState :=
  if p.position ≤ 0 then s
  else
    match pm_ret_pct marks p with
    | none => s
    | some ret_pct =>
        let conid := p.conId
        let s1 := pm_branch
          (decide ((1 : ℚ) / 2 ≤ ret_pct) && !_has_working_breakeven_stop s.trades conid)
          (fun st => { st with be := st.be + 1 })
          conid
          (place_breakeven_stop p.position
            ((_entry_from_position p).getD 0) allow_exits) s
        let s2 := pm_branch
          (decide ((1 : ℚ) ≤ ret_pct) && decide (2 ≤ p.position) &&
            !_has_working_scaleout_sell s1.trades conid)
          (fun st => { st with tp1 := st.tp1 + 1 })
          conid
          (place_sell_scaleout_1 is_rth (marks conid) allow_exits) s1
        let s3 := pm_branch
          (!_has_working_trailing_sell s2.trades conid)
          (fun st => { st with trail_ensure := st.trail_ensure + 1 })
          conid
          (place_trailing_stop cfg p.position allow_exits) s2
        s3

/-- The position-management pass of `run`: the loop body applied to every
open stock position in snapshot order. -/
def pm_pass (cfg : RiskConfig) (marks : Int → Option ℚ) (is_rth : Bool)
    (allow_exits : Bool) (s : PMState) (positions : List Position) : PMState :=
  positions.foldl (pm_position_step cfg marks is_rth allow_exits) s

/-- Broker observations a single `run(symbol)` works against. -/
structure Env where
  acctRows : List AcctRow
  daily_pnl : Option ℚ
  trades : List Trade
  positions : List Position
  marks : Int → Option ℚ
  is_rth : Bool
  store : List SignalRow
  order_submit_time : List (Nat × Int)
  now : Int
  nextOrderId : Nat

/-- Result of one `run(symbol)`: everything handed to `ib.placeOrder`,
the final counters, and whether the position-management loop was reached
(it is skipped by the early `return`s in the entry stage). -/
structure RunResult where
  submitted : List (Int × Order)
  stats : RunStats
  pm_ran : Bool
deriving Repr, DecidableEq

/-- Building of the `acct` dict from `accountSummary()` rows: rows whose
value is falsy or fails numeric coercion are skipped; a later row with the
same tag overwrites an earlier one. -/
def build_acct (rows : List AcctRow) : List (String × ℚ) :=
  rows.foldl
    (fun acc r =>
      match r.value with
      | none => acc
      | some v => (r.tag, v) :: acc)
    []

/-- Python `dict.get(tag, dflt)` on the `acct` dict. -/
def acct_get (acct : List (String × ℚ)) (tag : String) (dflt : ℚ) : ℚ :=
  match acct.lookup tag with
  | some v => v
  | none => dflt

/-- The buying-power read in `run`:
`acct.get("BuyingPower", acct.get("AvailableFunds", 0.0))`. -/
def buying_power_of (acct : List (String × ℚ)) : ℚ :=
  acct_get acct "BuyingPower" (acct_get acct "AvailableFunds" 0)

/-- The preflight risk estimate in `run`: a stop `preflight_stop_pct`
below the entry price, risk per share times the entry quantity. -/
def preflight_dollar_risk (cfg : RiskConfig) (entry_price : ℚ) : ℚ :=
  let stop_price_for_math := entry_price * (1 - cfg.preflight_stop_pct)
  let risk_per_share := entry_price - stop_price_for_math
  risk_per_share * (cfg.entry_qty : ℚ)

/-- The working BUY non-TRAIL trades the entry gates count, from the full
trade list with no restriction on the instrument. -/
def open_entry_trades_of (trades : List Trade) : List Trade :=
  (trades.filter fun t => isWorkingStatus t.status).filter _is_entry_order_trade

/-- The minimum-order-age gate: true when some open entry order is locally
tracked in `order_submit_time` and younger than `min_order_age_seconds`;
an untracked order id is skipped. -/
def min_age_gate_hit (cfg : RiskConfig) (submit_times : List (Nat × Int))
    (now : Int) (entry_trades : List Trade) : Bool :=
  entry_trades.any fun t =>
    match submit_times.lookup t.orderId with
    | none => false
    | some ts => decide (now - ts < cfg.min_order_age_seconds)

/-- The `allow_exits` flag computed at the top of `run`. -/
def engine_allow_exits (eng : Engine) : Bool :=
  eng.execute_trades_default || eng.allow_exits_when_killed

/-- Run state at the start of a run: broker snapshot plus fresh counters. -/
def init_state (env : Env) : PMState :=
  { trades := env.trades, nextId := env.nextOrderId,
    submitTimes := env.order_submit_time, now := env.now,
    stats := {}, submitted := [] }

/-- The part of `run` before the signal is loaded: budgets from the
account summary, the daily-loss kill switch (whose liquidation orders join
the trade list), and the open-order-cap and minimum-order-age entry gates.
Returns the threaded state, the `allow_entries` flag and `max_trade_risk`. -/
def run_prelude (eng : Engine) (env : Env) : PMState × Bool × ℚ :=
  let cfg := eng.risk
  let allow_orders := eng.execute_trades_default
  let allow_exits := engine_allow_exits eng
  let acct := build_acct env.acctRows
  let buying_power := buying_power_of acct
  let max_trade_risk := buying_power * cfg.per_trade_risk_pct
  let max_day_risk := buying_power * cfg.per_day_risk_pct
  let ks := enforce_daily_loss_killswitch env.daily_pnl env.positions
    max_day_risk allow_exits
  let s1 := ks.2.foldl (fun s co => submit s co.1 co.2) (init_state env)
  let entry_trades := open_entry_trades_of s1.trades
  let cap_hit : Bool := decide (cfg.max_open_orders ≤ entry_trades.length)
  let age_hit := min_age_gate_hit cfg s1.submitTimes env.now entry_trades
  let allow_entries := allow_orders && ks.1 && !cap_hit && !age_hit
  (s1, allow_entries, max_trade_risk)

/-- The entry placement of `run` (reached when every entry gate passed):
`place_buy_entry`, the entry counter bump on an actual submission, and the
post-entry trailing-stop safety net guarded by its classifier. -/
def entry_placement (eng : Engine) (env : Env) (conid : Int)
    (allow_entries : Bool) (s2 : PMState) : PMState :=
  let qty := eng.risk.entry_qty
  let pr := place_buy_entry env.is_rth (env.marks conid) qty allow_entries
  let s3 := apply_place s2 conid pr
  match pr with
  | PlaceResult.placed _ =>
      let s3e := { s3 with stats := { s3.stats with entry := s3.stats.entry + 1 } }
      if _has_working_trailing_sell s3e.trades conid then s3e
      else apply_place s3e conid
        (place_trailing_stop eng.risk qty (engine_allow_exits eng))
  | _ => s3

/-- The signal-driven entry stage of `run`, after a signal row with a
resolved conId was found: the already-long and allow-entries skips fall
through to position management; a missing or non-positive preflight price
and a too-high preflight risk are early `return`s. Result: the threaded
state plus `true` when the stage ended in an early `return` (skipping
position management). -/
def entry_stage (eng : Engine) (env : Env) (conid : Int)
    (allow_entries : Bool) (max_trade_risk : ℚ) (s2 : PMState) :
    PMState × Bool :=
  if _already_long_conid env.positions conid then (s2, false)
  else if !allow_entries then (s2, false)
  else
    match env.marks conid with
    | none =>
        ({ s2 with stats := { s2.stats with
            skips_no_price := s2.stats.skips_no_price + 1 } }, true)
    | some entry_price =>
        if entry_price ≤ 0 then
          ({ s2 with stats := { s2.stats with
              skips_no_price := s2.stats.skips_no_price + 1 } }, true)
        else if max_trade_risk < preflight_dollar_risk eng.risk entry_price then
          (s2, true)
        else
          (entry_placement eng env conid allow_entries s2, false)

/-- The tail of `run`: the position-management pass over all open
positions followed by result assembly. -/
def pm_finish (eng : Engine) (env : Env) (s : PMState) : RunResult :=
  let sf := pm_pass eng.risk env.marks env.is_rth (engine_allow_exits eng)
    s env.positions
  { submitted := sf.submitted, stats := sf.stats, pm_ran := true }

/-- One full `run(symbol)` cycle: prelude, then the signal-driven entry
stage with its early `return`s (bad conId, no preflight price, risk too
high), then — on the paths that reach it — the position-management pass
over all open positions. -/
def run (eng : Engine) (env : Env) (symbol : String) : RunResult :=
  let pre := run_prelude eng env
  let s1 := pre.1
  let allow_entries := pre.2.1
  let max_trade_risk := pre.2.2
  match load_latest_signal env.store symbol with
  | none => pm_finish eng env s1
  | some row =>
      let s2 := { s1 with stats := { s1.stats with signal := s1.stats.signal + 1 } }
      match row.con_id with
      | none =>
          { submitted := s2.submitted,
            stats := { s2.stats with errs := s2.stats.errs + 1 },
            pm_ran := false }
      | some conid =>
          let es := entry_stage eng env conid allow_entries max_trade_risk s2
          if es.2 then
            { submitted := es.1.submitted, stats := es.1.stats, pm_ran := false }
          else pm_finish eng env es.1

/-- Environment for a run against a broker whose top-level calls may
throw: `connect`, `accountSummary`, `ib.trades()` (entry gates) and
`ib.positions()` are the broker calls `run` makes with no surrounding
`except`; a `some e` injects an exception at that call site. All other
failure modes (DB read, PnL read, `_safe_int`, per-position management)
are caught inside the engine and are part of `base` already. -/
structure EnvE where
  base : Env
  connect_err : Option String := none
  acct_err : Option String := none
  trades_err : Option String := none
  positions_err : Option String := none

/-- Body of `run` under fallible broker calls: the code inside the
`try:` block. A throwing call aborts the body with that exception — `run`
has `try/finally` but no `except`, so nothing in the body catches it. -/
def run_body_E (eng : Engine) (envE : EnvE) (symbol : String) :
    Except String RunResult :=
  match envE.connect_err with
  | some e => .error e
  | none =>
      match envE.acct_err with
      | some e => .error e
      | none =>
          match envE.trades_err with
          | some e => .error e
          | none =>
              match envE.positions_err with
              | some e => .error e
              | none => .ok (run eng envE.base symbol)

/-- The whole of `run` with its `try/finally`: the `finally` emits exactly
one summary line whatever the body did, and then any exception from the
body is re-raised to the caller. First component: the body's outcome as
the caller sees it; second component: the number of summary lines emitted. -/
def runE (eng : Engine) (envE : EnvE) (symbol : String) :
    Except String RunResult × Nat :=
  (run_body_E eng envE symbol, 1)

/-- The position-management loop with per-position failure injection:
`fail p = some e` models the loop body throwing for `p`. The
`except Exception` inside the loop catches it, `log_error` bumps the
`errs` counter, and the loop continues with the next position. -/
def pm_pass_E (cfg : RiskConfig) (marks : Int → Option ℚ) (is_rth : Bool)
    (allow_exits : Bool) (fail : Position → Option String) (s : PMState)
    (positions : List Position) : PMState :=
  positions.foldl
    (fun s p =>
      match fail p with
      | some _ => { s with stats := { s.stats with errs := s.stats.errs + 1 } }
      | none => pm_position_step cfg marks is_rth allow_exits s p)
    s

/-- The `main_execution` dispatch loop over symbols: strictly sequential,
one `eng.run(sym)` per symbol with no surrounding `except`, so the first
exception that escapes a run aborts the remainder of the batch. -/
def main_execution_E (eng : Engine) (batch : List (String × EnvE)) :
    Except String (List RunResult) :=
  batch.foldlM
    (fun acc se => do
      let r ← run_body_E eng se.2 se.1
      pure (acc ++ [r]))
    []

/-- Whether a submitted (conId, order) pair is a BUY. -/
def is_buy (co : Int × Order) : Bool := co.2.action == "BUY"

/-- Whether a submitted (conId, order) pair has the shape of a scale-out
sell: SELL with order type MKT or LMT. -/
def is_scaleout_shape (co : Int × Order) : Bool :=
  co.2.action == "SELL" && (co.2.orderType == "MKT" || co.2.orderType == "LMT")

/-- Condition under which the breakeven-stop action of the position
manager fires for a position against a trade snapshot: long quantity,
return ≥ 0.5 %, and no working breakeven stop on the instrument. -/
def pm_fires_be (marks : Int → Option ℚ) (T : List Trade) (p : Position) : Bool :=
  !decide (p.position ≤ 0) &&
    (match pm_ret_pct marks p with
     | none => false
     | some r => decide ((1 : ℚ) / 2 ≤ r)) &&
    !_has_working_breakeven_stop T p.conId

/-- Condition under which the scale-out action fires: long quantity,
return ≥ 1.0 %, quantity ≥ 2, and no working scale-out sell on the
instrument. -/
def pm_fires_tp1 (marks : Int → Option ℚ) (T : List Trade) (p : Position) : Bool :=
  !decide (p.position ≤ 0) &&
    (match pm_ret_pct marks p with
     | none => false
     | some r => decide ((1 : ℚ) ≤ r)) &&
    decide (2 ≤ p.position) &&
    !_has_working_scaleout_sell T p.conId

/-- Condition under which the trailing-stop safety net fires: long
quantity with usable entry and mark, and no working trailing sell on the
instrument. -/
def pm_fires_trail (marks : Int → Option ℚ) (T : List Trade) (p : Position) : Bool :=
  !decide (p.position ≤ 0) && (pm_ret_pct marks p).isSome &&
    !_has_working_trailing_sell T p.conId

/-- Concrete environment used by the C3 counterexample: a signal row with
an unresolvable instrument id together with an unprotected open position. -/
def env_c3 : Env :=
  { acctRows := [⟨"BuyingPower", some 100000⟩], daily_pnl := some 0,
    trades := [], positions := [⟨9, 4, 100⟩],
    marks := fun c => if c == 9 then some 102 else none, is_rth := true,
    store := [⟨"AAPL", 1, true, none⟩],
    order_submit_time := [], now := 0, nextOrderId := 1 }

/-- Signal store used by the C8 counterexample: the most recent row for
"XYZ" has `trade_signal = false`, an older row has `trade_signal = true`. -/
def store_c8 : List SignalRow :=
  [⟨"XYZ", 1, true, some 777⟩, ⟨"XYZ", 2, false, some 777⟩]

/-- Concrete environment used by the C8 counterexample: permissive account
and price state against `store_c8`. -/
def env_c8 : Env :=
  { acctRows := [⟨"BuyingPower", some 100000⟩], daily_pnl := some 0,
    trades := [], positions := [],
    marks := fun c => if c == 777 then some 50 else none, is_rth := true,
    store := store_c8,
    order_submit_time := [], now := 0, nextOrderId := 1 }

/-- Trivial broker snapshot used by the C2 counterexample. -/
def env_c2 : Env :=
  { acctRows := [], daily_pnl := none, trades := [], positions := [],
    marks := fun _ => none, is_rth := true, store := [],
    order_submit_time := [], now := 0, nextOrderId := 1 }

/-- Concrete environment used by the C5 witness: no account rows at all,
so buying power falls back to zero, with an otherwise permissive signal. -/
def env_c5 : Env :=
  { acctRows := [], daily_pnl := none, trades := [], positions := [],
    marks := fun _ => some 50, is_rth := true,
    store := [⟨"AAA", 1, true, some 7⟩],
    order_submit_time := [], now := 0, nextOrderId := 1 }

/-- Concrete environment used by the C9 witness: three working BUY orders
on instrument 999 (unrelated to the signal's instrument 777) saturate the
open-order cap. -/
def env_c9 : Env :=
  { acctRows := [⟨"BuyingPower", some 100000⟩], daily_pnl := none,
    trades :=
      [⟨11, 999, "Submitted", { action := "BUY", orderType := "MKT", totalQuantity := 2 }⟩,
       ⟨12, 999, "PreSubmitted", { action := "BUY", orderType := "LMT", totalQuantity := 2, lmtPrice := some 10 }⟩,
       ⟨13, 999, "ApiPending", { action := "BUY", orderType := "MKT", totalQuantity := 2 }⟩],
    positions := [],
    marks := fun _ => some 50, is_rth := true,
    store := [⟨"XYZ", 1, true, some 777⟩],
    order_submit_time := [], now := 0, nextOrderId := 14 }

/-- Fresh engine-side state used by the C7 witness. -/
def pm_state_c7 : PMState :=
  { trades := [], nextId := 1, submitTimes := [], now := 0,
    stats := {}, submitted := [] }

/-- Claim C4. `enforce_daily_loss_killswitch`: a measurable daily PnL at
or below `-maxDayRisk` denies entries and (when exits are allowed)
submits a market sell for every position with quantity > 0; a measurable
PnL above `-maxDayRisk` allows entries and submits nothing; an
unmeasurable PnL fails open, allowing entries with no orders. -/
theorem enforce_daily_loss_killswitch_spec
    (pnl max_day_risk : ℚ) (ps : List Position) (allow_exits : Bool) :
    (pnl ≤ -max_day_risk →
      (enforce_daily_loss_killswitch (some pnl) ps max_day_risk allow_exits).1 = false
      ∧ (allow_exits = true → ∀ p ∈ ps, 0 < p.position →
          (p.conId, ({ action := "SELL", orderType := "MKT",
                       totalQuantity := p.position } : Order)) ∈
            (enforce_daily_loss_killswitch (some pnl) ps max_day_risk allow_exits).2))
    ∧ (-max_day_risk < pnl →
        enforce_daily_loss_killswitch (some pnl) ps max_day_risk allow_exits
          = (true, []))
    ∧ enforce_daily_loss_killswitch none ps max_day_risk allow_exits = (true, []) := by
  refine ⟨?_, ?_, rfl⟩
  · intro hle
    constructor
    · simp [enforce_daily_loss_killswitch, hle]
    · intro hex p hp hpos
      simp only [enforce_daily_loss_killswitch, if_pos hle]
      subst hex
      simp only [close_all_stock_positions, Bool.not_true, Bool.false_eq_true,
        if_false, List.mem_filterMap]
      refine ⟨p, hp, ?_⟩
      simp [place_market_sell, if_pos hpos]
  · intro hgt
    simp [enforce_daily_loss_killswitch, not_le.mpr (by linarith : -max_day_risk < pnl)]

/-- Witness for C4 at the spec's own numbers: `dailyPnL = -150`,
`maxDayRisk = 100` liquidates a 3-share position and denies entries;
`dailyPnL = -50` allows entries and submits nothing. -/
theorem enforce_daily_loss_killswitch_spec_witness :
    (enforce_daily_loss_killswitch (some (-150)) [⟨777, 3, 50⟩] 100 true).1 = false
    ∧ (777, ({ action := "SELL", orderType := "MKT",
               totalQuantity := 3 } : Order)) ∈
        (enforce_daily_loss_killswitch (some (-150)) [⟨777, 3, 50⟩] 100 true).2
    ∧ enforce_daily_loss_killswitch (some (-50)) [⟨777, 3, 50⟩] 100 true = (true, []) := by
  have h := enforce_daily_loss_killswitch_spec (-150) 100 [⟨777, 3, 50⟩] true
  have h2 := enforce_daily_loss_killswitch_spec (-50) 100 [⟨777, 3, 50⟩] true
  refine ⟨(h.1 (by norm_num)).1, ?_, h2.2.1 (by norm_num)⟩
  exact (h.1 (by norm_num)).2 rfl ⟨777, 3, 50⟩ (by simp) (by norm_num)

/-- Claim C6. `place_buy_entry`: outside regular hours with a resolved
positive mark price `m`, the submitted order is a LIMIT BUY at
`round(m * 1.002, 2)` flagged to execute outside regular hours; outside
regular hours with no resolved mark, no order is submitted; during
regular hours the submitted order is a MARKET BUY carrying no price
field. -/
theorem place_buy_entry_session_routing (qty : Int) (mark : Option ℚ) (m : ℚ) :
    (0 < m →
      place_buy_entry false (some m) qty true =
        .placed { action := "BUY", orderType := "LMT", totalQuantity := qty,
                  lmtPrice := some (py_round2 (m * (1002 / 1000))),
                  outsideRth := true })
    ∧ place_buy_entry false none qty true = .skip_no_price
    ∧ place_buy_entry true mark qty true =
        .placed { action := "BUY", orderType := "MKT", totalQuantity := qty,
                  lmtPrice := none } := by
  refine ⟨?_, rfl, rfl⟩
  intro hm
  simp [place_buy_entry, not_le.mpr hm]

/-- Witness for C6 at mark 50: the limit price evaluates to 50.10. -/
theorem place_buy_entry_session_routing_witness :
    place_buy_entry false (some 50) 2 true =
      .placed { action := "BUY", orderType := "LMT", totalQuantity := 2,
                lmtPrice := some (501 / 10), outsideRth := true } := by
  have h := (place_buy_entry_session_routing 2 none 50).1 (by norm_num)
  rw [h]
  norm_num [py_round2, round_half_even]

/-! Helper lemmas about order placement and the threaded run state. -/

theorem submit_trades_eq (s : PMState) (c : Int) (o : Order) :
    (submit s c o).trades =
      s.trades ++ [{ orderId := s.nextId, conId := c,
                     status := "Submitted", order := o }] := rfl

theorem submit_submitted_eq (s : PMState) (c : Int) (o : Order) :
    (submit s c o).submitted = s.submitted ++ [(c, o)] := rfl

theorem submit_stats_eq (s : PMState) (c : Int) (o : Order) :
    (submit s c o).stats = s.stats := rfl

theorem place_market_sell_action (qty : Int) (allow : Bool) (o : Order) :
    place_market_sell qty allow = .placed o → o.action = "SELL" := by
  cases allow
  · simp [place_market_sell]
  · simp only [place_market_sell, if_true]
    intro h
    injection h with h2
    rw [← h2]

theorem place_breakeven_stop_action (qty : Int) (sp : ℚ) (allow : Bool) (o : Order) :
    place_breakeven_stop qty sp allow = .placed o → o.action = "SELL" := by
  cases allow
  · simp [place_breakeven_stop]
  · simp only [place_breakeven_stop, if_true]
    intro h
    injection h with h2
    rw [← h2]

theorem place_trailing_stop_action (cfg : RiskConfig) (qty : Int) (allow : Bool)
    (o : Order) : place_trailing_stop cfg qty allow = .placed o → o.action = "SELL" := by
  cases allow
  · simp [place_trailing_stop]
  · simp only [place_trailing_stop, if_true]
    intro h
    injection h with h2
    rw [← h2]

theorem place_sell_scaleout_1_action (is_rth : Bool) (mark : Option ℚ) (allow : Bool)
    (o : Order) :
    place_sell_scaleout_1 is_rth mark allow = .placed o → o.action = "SELL" := by
  cases allow
  · simp [place_sell_scaleout_1]
  · cases is_rth
    · cases mark with
      | none => simp [place_sell_scaleout_1]
      | some px =>
          by_cases hpx : px ≤ 0
          · simp [place_sell_scaleout_1, hpx]
          · simp only [place_sell_scaleout_1, hpx, Bool.not_true,
              Bool.false_eq_true, if_false, if_true]
            intro h
            injection h with h2
            rw [← h2]
    · simp [place_sell_scaleout_1]
      rintro rfl
      rfl

theorem place_buy_entry_action (is_rth : Bool) (mark : Option ℚ) (qty : Int)
    (allow : Bool) (o : Order) :
    place_buy_entry is_rth mark qty allow = .placed o → o.action = "BUY" := by
  cases allow
  · simp [place_buy_entry]
  · cases is_rth
    · cases mark with
      | none => simp [place_buy_entry]
      | some px =>
          by_cases hpx : px ≤ 0
          · simp [place_buy_entry, hpx]
          · simp only [place_buy_entry, hpx, Bool.not_true,
              Bool.false_eq_true, if_false, if_true]
            intro h
            injection h with h2
            rw [← h2]
    · simp [place_buy_entry]
      rintro rfl
      rfl

theorem close_all_stock_positions_action (ps : List Position) (allow : Bool) :
    ∀ co ∈ close_all_stock_positions ps allow, co.2.action = "SELL" := by
  intro co hco
  cases allow with
  | false => simp [close_all_stock_positions] at hco
  | true =>
      simp only [close_all_stock_positions, Bool.not_true, Bool.false_eq_true,
        if_false, List.mem_filterMap] at hco
      obtain ⟨p, _, hp⟩ := hco
      by_cases hpos : (0 : Int) < p.position
      · rw [if_pos hpos] at hp
        revert hp
        cases hmk : place_market_sell p.position true with
        | placed o =>
            intro hp
            cases hp
            simpa using place_market_sell_action p.position true o hmk
        | skip_no_price => intro hp; cases hp
        | skip_allow => intro hp; cases hp
      · rw [if_neg hpos] at hp
        cases hp

theorem foldl_submit_submitted (l : List (Int × Order)) (s : PMState) :
    (l.foldl (fun s co => submit s co.1 co.2) s).submitted = s.submitted ++ l := by
  induction l generalizing s with
  | nil => simp
  | cons co rest ih => simp [ih, submit_submitted_eq]

theorem foldl_submit_stats (l : List (Int × Order)) (s : PMState) :
    (l.foldl (fun s co => submit s co.1 co.2) s).stats = s.stats := by
  induction l generalizing s with
  | nil => rfl
  | cons co rest ih => simp [ih, submit_stats_eq]

theorem run_prelude_submitted (eng : Engine) (env : Env) :
    (run_prelude eng env).1.submitted =
      (enforce_daily_loss_killswitch env.daily_pnl env.positions
        (buying_power_of (build_acct env.acctRows) * eng.risk.per_day_risk_pct)
        (engine_allow_exits eng)).2 := by
  simp [run_prelude, foldl_submit_submitted, init_state]

theorem run_prelude_stats (eng : Engine) (env : Env) :
    (run_prelude eng env).1.stats = {} := by
  simp [run_prelude, foldl_submit_stats, init_state]

theorem run_prelude_buy_count (eng : Engine) (env : Env) :
    (run_prelude eng env).1.submitted.countP is_buy = 0 := by
  rw [run_prelude_submitted, List.countP_eq_zero]
  intro co hco
  have := close_all_stock_positions_action env.positions (engine_allow_exits eng)
  cases henv : env.daily_pnl with
  | none => simp [enforce_daily_loss_killswitch, henv] at hco
  | some pnl =>
      simp only [enforce_daily_loss_killswitch, henv] at hco
      by_cases hle : pnl ≤ -(buying_power_of (build_acct env.acctRows) *
          eng.risk.per_day_risk_pct)
      · rw [if_pos hle] at hco
        have hsell := close_all_stock_positions_action env.positions
          (engine_allow_exits eng) co hco
        simp [is_buy, hsell]
      · rw [if_neg hle] at hco
        simp at hco

theorem pm_ret_pct_some_mark (marks : Int → Option ℚ) (p : Position) (r : ℚ) :
    pm_ret_pct marks p = some r → ∃ m, marks p.conId = some m ∧ ¬m ≤ 0 := by
  unfold pm_ret_pct
  cases _entry_from_position p with
  | none => simp
  | some e =>
      cases hm : marks p.conId with
      | none => simp
      | some m =>
          by_cases hm0 : m ≤ 0
          · simp [hm0]
          · simp only [if_neg hm0, Option.some.injEq]
            exact fun _ => ⟨m, rfl, hm0⟩

theorem pm_position_step_buy_entry (cfg : RiskConfig) (marks : Int → Option ℚ)
    (rth ae : Bool) (s : PMState) (p : Position) :
    (pm_position_step cfg marks rth ae s p).submitted.countP is_buy
      = s.submitted.countP is_buy ∧
    (pm_position_step cfg marks rth ae s p).stats.entry = s.stats.entry := by
  unfold pm_position_step
  by_cases hq : p.position ≤ 0
  · simp [hq]
  · rw [if_neg hq]
    cases hr : pm_ret_pct marks p with
    | none => exact ⟨rfl, rfl⟩
    | some ret =>
        obtain ⟨m, hm, hm0⟩ := pm_ret_pct_some_mark marks p ret hr
        cases ae
        · simp only [pm_branch, apply_place, place_breakeven_stop,
            place_sell_scaleout_1, place_trailing_stop, Bool.false_eq_true,
            if_false, Bool.not_false, Bool.not_true]
          constructor <;> split_ifs <;> rfl
        · cases rth <;>
            · simp only [hm, place_breakeven_stop, place_sell_scaleout_1,
                place_trailing_stop, if_neg hm0, if_true, Bool.not_false]
              constructor <;>
                · simp only [pm_branch, apply_place]
                  split_ifs <;>
                    simp [submit, List.countP_append, is_buy, List.countP_cons]

theorem apply_place_not_buy (s : PMState) (c : Int) (pr : PlaceResult)
    (hpr : ∀ o, pr = .placed o → is_buy (c, o) = false) :
    (apply_place s c pr).submitted.countP is_buy = s.submitted.countP is_buy ∧
    (apply_place s c pr).stats.entry = s.stats.entry := by
  cases pr with
  | placed o =>
      refine ⟨?_, rfl⟩
      simp [apply_place, submit_submitted_eq, List.countP_append,
        List.countP_cons, hpr o rfl]
  | skip_no_price => exact ⟨rfl, rfl⟩
  | skip_allow => exact ⟨rfl, rfl⟩

theorem pm_pass_buy_entry (cfg : RiskConfig) (marks : Int → Option ℚ)
    (rth ae : Bool) (ps : List Position) (s : PMState) :
    (pm_pass cfg marks rth ae s ps).submitted.countP is_buy
      = s.submitted.countP is_buy ∧
    (pm_pass cfg marks rth ae s ps).stats.entry = s.stats.entry := by
  induction ps generalizing s with
  | nil => exact ⟨rfl, rfl⟩
  | cons p rest ih =>
      have hstep := pm_position_step_buy_entry cfg marks rth ae s p
      have hrest := ih (pm_position_step cfg marks rth ae s p)
      exact ⟨hrest.1.trans hstep.1, hrest.2.trans hstep.2⟩

theorem entry_placement_delta (eng : Engine) (env : Env) (conid : Int)
    (allow : Bool) (s2 : PMState) :
    ∃ d, (entry_placement eng env conid allow s2).submitted.countP is_buy
          = s2.submitted.countP is_buy + d ∧
        (entry_placement eng env conid allow s2).stats.entry
          = s2.stats.entry + d := by
  unfold entry_placement
  cases hpr : place_buy_entry env.is_rth (env.marks conid)
      eng.risk.entry_qty allow with
  | placed o =>
      have hact : o.action = "BUY" := place_buy_entry_action _ _ _ _ _ hpr
      refine ⟨1, ?_⟩
      simp only [hpr]
      dsimp only [apply_place, submit]
      split
      · simp [List.countP_append, List.countP_cons, is_buy, hact]
      · cases hex : engine_allow_exits eng
        · simp [place_trailing_stop, hex, List.countP_append,
            List.countP_cons, is_buy, hact]
        · simp [place_trailing_stop, hex, List.countP_append,
            List.countP_cons, is_buy, hact]
  | skip_no_price =>
      refine ⟨0, ?_⟩
      simp only [hpr]
      exact ⟨rfl, rfl⟩
  | skip_allow =>
      refine ⟨0, ?_⟩
      simp only [hpr]
      exact ⟨rfl, rfl⟩

theorem entry_stage_delta (eng : Engine) (env : Env) (conid : Int)
    (allow : Bool) (mtr : ℚ) (s2 : PMState) :
    ∃ d, (entry_stage eng env conid allow mtr s2).1.submitted.countP is_buy
          = s2.submitted.countP is_buy + d ∧
        (entry_stage eng env conid allow mtr s2).1.stats.entry
          = s2.stats.entry + d := by
  unfold entry_stage
  split
  · exact ⟨0, rfl, rfl⟩
  · split
    · exact ⟨0, rfl, rfl⟩
    · split
      · exact ⟨0, rfl, rfl⟩
      · split
        · exact ⟨0, rfl, rfl⟩
        · split
          · exact ⟨0, rfl, rfl⟩
          · exact entry_placement_delta eng env conid allow s2

theorem entry_stage_allow_false (eng : Engine) (env : Env) (conid : Int)
    (mtr : ℚ) (s2 : PMState) :
    entry_stage eng env conid false mtr s2 = (s2, false) := by
  unfold entry_stage
  split
  · rfl
  · rfl

theorem entry_stage_denied (eng : Engine) (env : Env) (conid : Int)
    (allow : Bool) (mtr : ℚ) (s2 : PMState)
    (h : ∀ px, env.marks conid = some px → ¬px ≤ 0 →
        mtr < preflight_dollar_risk eng.risk px) :
    (entry_stage eng env conid allow mtr s2).1.submitted.countP is_buy
      = s2.submitted.countP is_buy ∧
    (entry_stage eng env conid allow mtr s2).1.stats.entry = s2.stats.entry := by
  unfold entry_stage
  split
  · exact ⟨rfl, rfl⟩
  · split
    · exact ⟨rfl, rfl⟩
    · cases hmk : env.marks conid with
      | none => exact ⟨rfl, rfl⟩
      | some px =>
          dsimp only
          split
          · exact ⟨rfl, rfl⟩
          · next hp0 =>
              rw [if_pos (h px hmk hp0)]
              exact ⟨rfl, rfl⟩

/-- Common helper: the signal bump applied to the prelude state keeps the
entry counter and the submitted orders. -/
theorem signal_bump_of (s : PMState) :
    ({ s with stats := { s.stats with signal := s.stats.signal + 1 } }).submitted
        = s.submitted ∧
    ({ s with stats := { s.stats with signal := s.stats.signal + 1 } }).stats.entry
        = s.stats.entry := ⟨rfl, rfl⟩

theorem run_entry_eq_buy_count (eng : Engine) (env : Env) (sym : String) :
    (run eng env sym).stats.entry = (run eng env sym).submitted.countP is_buy := by
  have hpre_stats := run_prelude_stats eng env
  have hpre_buy := run_prelude_buy_count eng env
  have hpm := pm_pass_buy_entry eng.risk env.marks env.is_rth
    (engine_allow_exits eng) env.positions
  simp only [run]
  cases hload : load_latest_signal env.store sym with
  | none =>
      dsimp only [pm_finish]
      rw [(hpm _).1, (hpm _).2, hpre_stats, hpre_buy]
  | some row =>
      dsimp only
      cases hcid : row.con_id with
      | none =>
          dsimp only
          rw [hpre_buy, hpre_stats]
      | some conid =>
          dsimp only
          obtain ⟨d, hd1, hd2⟩ := entry_stage_delta eng env conid
            (run_prelude eng env).2.1 (run_prelude eng env).2.2
            { (run_prelude eng env).1 with stats :=
              { (run_prelude eng env).1.stats with signal :=
                (run_prelude eng env).1.stats.signal + 1 } }
          split
          · dsimp only
            rw [hd1, hd2]
            dsimp only
            rw [hpre_stats, hpre_buy]
          · dsimp only [pm_finish]
            rw [(hpm _).1, (hpm _).2, hd1, hd2]
            dsimp only
            rw [hpre_stats, hpre_buy]

theorem run_buy_count_zero_of_denied (eng : Engine) (env : Env) (sym : String)
    (h : (run_prelude eng env).2.1 = false ∨
         ∀ cid px, env.marks cid = some px → ¬px ≤ 0 →
           (run_prelude eng env).2.2 < preflight_dollar_risk eng.risk px) :
    (run eng env sym).submitted.countP is_buy = 0 := by
  have hpre_buy := run_prelude_buy_count eng env
  have hpm := pm_pass_buy_entry eng.risk env.marks env.is_rth
    (engine_allow_exits eng) env.positions
  simp only [run]
  cases hload : load_latest_signal env.store sym with
  | none =>
      dsimp only [pm_finish]
      rw [(hpm _).1]
      exact hpre_buy
  | some row =>
      dsimp only
      cases hcid : row.con_id with
      | none => exact hpre_buy
      | some conid =>
          dsimp only
          rcases h with hfalse | hrisk
          · rw [hfalse, entry_stage_allow_false]
            simp only [Bool.false_eq_true, if_false]
            dsimp only [pm_finish]
            rw [(hpm _).1]
            exact hpre_buy
          · have hd := entry_stage_denied eng env conid (run_prelude eng env).2.1
              (run_prelude eng env).2.2
              { (run_prelude eng env).1 with stats :=
                { (run_prelude eng env).1.stats with signal :=
                  (run_prelude eng env).1.stats.signal + 1 } }
              (fun px hmk hp0 => hrisk conid px hmk hp0)
            split
            · dsimp only
              rw [hd.1]
              exact hpre_buy
            · dsimp only [pm_finish]
              rw [(hpm _).1, hd.1]
              exact hpre_buy

theorem run_prelude_allow_false_of_cap (eng : Engine) (env : Env)
    (h : eng.risk.max_open_orders ≤
        (open_entry_trades_of (run_prelude eng env).1.trades).length) :
    (run_prelude eng env).2.1 = false := by
  dsimp only [run_prelude] at h ⊢
  rw [decide_eq_true h]
  simp

theorem run_prelude_allow_false_of_age (eng : Engine) (env : Env)
    (h : min_age_gate_hit eng.risk (run_prelude eng env).1.submitTimes env.now
        (open_entry_trades_of (run_prelude eng env).1.trades) = true) :
    (run_prelude eng env).2.1 = false := by
  dsimp only [run_prelude] at h ⊢
  rw [h]
  simp

/-- Claim C9. The open-entry-order cap and the minimum-order-age gate run
over working BUY non-TRAIL orders from the whole trade list, with no
filter on the instrument: membership in the counted list constrains only
status, side and order type; when the counted list reaches
`max_open_orders`, or when some counted order is locally tracked and
younger than `min_order_age_seconds`, the run submits no BUY entry at all
(for whatever symbol it was invoked on); an order id absent from the local
submit-time map never triggers the age gate. -/
theorem entry_gates_all_instruments (eng : Engine) (env : Env) (sym : String) :
    (∀ (T : List Trade) (t : Trade), t ∈ open_entry_trades_of T ↔
        t ∈ T ∧ isWorkingStatus t.status = true ∧ _is_entry_order_trade t = true)
    ∧ (eng.risk.max_open_orders ≤
         (open_entry_trades_of (run_prelude eng env).1.trades).length →
       (run eng env sym).submitted.countP is_buy = 0)
    ∧ (min_age_gate_hit eng.risk (run_prelude eng env).1.submitTimes env.now
         (open_entry_trades_of (run_prelude eng env).1.trades) = true →
       (run eng env sym).submitted.countP is_buy = 0)
    ∧ (∀ (cfg : RiskConfig) (st : List (Nat × Int)) (now : Int) (ts : List Trade),
        (∀ t ∈ ts, st.lookup t.orderId = none) →
        min_age_gate_hit cfg st now ts = false) := by
  refine ⟨?_, ?_, ?_, ?_⟩
  · intro T t
    simp only [open_entry_trades_of, List.mem_filter]
    tauto
  · intro h
    exact run_buy_count_zero_of_denied eng env sym
      (Or.inl (run_prelude_allow_false_of_cap eng env h))
  · intro h
    exact run_buy_count_zero_of_denied eng env sym
      (Or.inl (run_prelude_allow_false_of_age eng env h))
  · intro cfg st now ts h
    rw [min_age_gate_hit, List.any_eq_false]
    intro t ht
    simp [h t ht]

/-- Witness for C9: in `env_c9` the three working BUY orders on instrument
999 saturate the cap (3 ≥ `max_open_orders` = 3), so the run for "XYZ"
(whose signal names instrument 777) submits no BUY. -/
theorem entry_gates_all_instruments_witness :
    (run {} env_c9 "XYZ").submitted.countP is_buy = 0 := by
  refine (entry_gates_all_instruments {} env_c9 "XYZ").2.1 ?_
  norm_num +decide [run_prelude, env_c9, init_state,
    enforce_daily_loss_killswitch, open_entry_trades_of, isWorkingStatus,
    _is_entry_order_trade, List.filter]

/-- Claim C5. The per-trade risk ceiling is exactly
`buying power × per_trade_risk_pct`, where buying power falls back to
`AvailableFunds` when `BuyingPower` is absent and to 0 when both are
absent; with zero buying power the ceiling is 0 and the preflight risk
check rejects every entry whose resolved price is positive, so no BUY is
ever submitted. -/
theorem risk_budget_correctness (eng : Engine) (env : Env) :
    ((run_prelude eng env).2.2 =
       buying_power_of (build_acct env.acctRows) * eng.risk.per_trade_risk_pct)
    ∧ (∀ acct : List (String × ℚ), acct.lookup "BuyingPower" = none →
         buying_power_of acct = acct_get acct "AvailableFunds" 0)
    ∧ (∀ acct : List (String × ℚ), acct.lookup "BuyingPower" = none →
         acct.lookup "AvailableFunds" = none → buying_power_of acct = 0)
    ∧ (buying_power_of (build_acct env.acctRows) = 0 →
         (run_prelude eng env).2.2 = 0)
    ∧ (∀ price : ℚ, buying_power_of (build_acct env.acctRows) = 0 → 0 < price →
         0 < eng.risk.preflight_stop_pct → 0 < eng.risk.entry_qty →
         (run_prelude eng env).2.2 < preflight_dollar_risk eng.risk price)
    ∧ (∀ sym, buying_power_of (build_acct env.acctRows) = 0 →
         0 < eng.risk.preflight_stop_pct → 0 < eng.risk.entry_qty →
         (run eng env sym).submitted.countP is_buy = 0) := by
  have hmtr : (run_prelude eng env).2.2 =
      buying_power_of (build_acct env.acctRows) * eng.risk.per_trade_risk_pct := rfl
  have hdollar : ∀ price : ℚ, preflight_dollar_risk eng.risk price =
      price * eng.risk.preflight_stop_pct * (eng.risk.entry_qty : ℚ) := by
    intro price
    unfold preflight_dollar_risk
    ring
  have hpos : ∀ price : ℚ, 0 < price → 0 < eng.risk.preflight_stop_pct →
      0 < eng.risk.entry_qty → 0 < preflight_dollar_risk eng.risk price := by
    intro price hp hs hq
    rw [hdollar]
    have hq' : (0 : ℚ) < (eng.risk.entry_qty : ℚ) := by exact_mod_cast hq
    positivity
  refine ⟨hmtr, ?_, ?_, ?_, ?_, ?_⟩
  · intro acct h
    unfold buying_power_of acct_get
    rw [h]
  · intro acct h1 h2
    unfold buying_power_of acct_get
    rw [h1, h2]
  · intro h
    rw [hmtr, h, zero_mul]
  · intro price h0 hp hs hq
    rw [hmtr, h0, zero_mul]
    exact hpos price hp hs hq
  · intro sym h0 hs hq
    refine run_buy_count_zero_of_denied eng env sym (Or.inr ?_)
    intro cid px _ hpx
    rw [hmtr, h0, zero_mul]
    exact hpos px (lt_of_not_le hpx) hs hq

/-- Witness for C5: with no account rows at all, buying power is 0, the
ceiling is 0, and the run for "AAA" (which has a live signal and a
resolved price of 50) submits no BUY. -/
theorem risk_budget_correctness_witness :
    (run_prelude {} env_c5).2.2 = 0
    ∧ (run {} env_c5 "AAA").submitted.countP is_buy = 0 := by
  have h := risk_budget_correctness {} env_c5
  have h0 : buying_power_of (build_acct env_c5.acctRows) = 0 := rfl
  exact ⟨h.2.2.2.1 h0,
    h.2.2.2.2.2 "AAA" h0 (by norm_num [RiskConfig.preflight_stop_pct])
      (by norm_num [RiskConfig.entry_qty])⟩

theorem trades_ite (c : Prop) [Decidable c] (a b : PMState) :
    (if c then a else b).trades = if c then a.trades else b.trades := by
  split <;> rfl

theorem pm_position_step_ae_false_eq (cfg : RiskConfig) (marks : Int → Option ℚ)
    (rth : Bool) (s : PMState) (p : Position) :
    pm_position_step cfg marks rth false s p =
      { s with stats :=
        { s.stats with
          be := s.stats.be + (if pm_fires_be marks s.trades p then 1 else 0),
          tp1 := s.stats.tp1 + (if pm_fires_tp1 marks s.trades p then 1 else 0),
          trail_ensure := s.stats.trail_ensure +
            (if pm_fires_trail marks s.trades p then 1 else 0) } } := by
  unfold pm_position_step
  by_cases hq : p.position ≤ 0
  · rw [if_pos hq]
    simp [pm_fires_be, pm_fires_tp1, pm_fires_trail, decide_eq_true hq]
  · rw [if_neg hq]
    have hqd : decide (p.position ≤ 0) = false := decide_eq_false hq
    cases hr : pm_ret_pct marks p with
    | none => simp [pm_fires_be, pm_fires_tp1, pm_fires_trail, hr]
    | some ret =>
        have hbe : pm_fires_be marks s.trades p =
            (decide ((1 : ℚ) / 2 ≤ ret) &&
              !_has_working_breakeven_stop s.trades p.conId) := by
          simp only [pm_fires_be, hqd, hr, Bool.not_false, Bool.true_and]
        have htp : pm_fires_tp1 marks s.trades p =
            (decide ((1 : ℚ) ≤ ret) && decide (2 ≤ p.position) &&
              !_has_working_scaleout_sell s.trades p.conId) := by
          simp only [pm_fires_tp1, hqd, hr, Bool.not_false, Bool.true_and]
        have htr : pm_fires_trail marks s.trades p =
            !_has_working_trailing_sell s.trades p.conId := by
          simp only [pm_fires_trail, hqd, hr, Bool.not_false, Bool.true_and,
            Option.isSome_some, Bool.and_true]
        rw [hbe, htp, htr]
        dsimp only [pm_branch]
        simp only [place_breakeven_stop, place_sell_scaleout_1,
          place_trailing_stop, Bool.not_false, Bool.false_eq_true,
          eq_self_iff_true, if_false, if_true]
        dsimp only [apply_place]
        simp only [trades_ite, ite_self]
        split_ifs <;> rfl

/-- Claim C10. With exits disallowed, one position-management step submits
nothing and changes no broker state, yet still increments the `be`, `tp1`
and `trail_ensure` counters exactly when their trigger conditions fire —
these counters count triggers, not submitted orders; the `entry` counter,
in contrast, always equals the number of BUY orders actually handed to
the broker by the run. -/
theorem trigger_counters_vs_orders (cfg : RiskConfig) (marks : Int → Option ℚ)
    (rth : Bool) (s : PMState) (p : Position) :
    ((pm_position_step cfg marks rth false s p).submitted = s.submitted)
    ∧ ((pm_position_step cfg marks rth false s p).trades = s.trades)
    ∧ ((pm_position_step cfg marks rth false s p).stats.be =
        s.stats.be + (if pm_fires_be marks s.trades p then 1 else 0))
    ∧ ((pm_position_step cfg marks rth false s p).stats.tp1 =
        s.stats.tp1 + (if pm_fires_tp1 marks s.trades p then 1 else 0))
    ∧ ((pm_position_step cfg marks rth false s p).stats.trail_ensure =
        s.stats.trail_ensure + (if pm_fires_trail marks s.trades p then 1 else 0))
    ∧ (∀ (eng : Engine) (env : Env) (sym : String),
        (run eng env sym).stats.entry = (run eng env sym).submitted.countP is_buy) := by
  rw [pm_position_step_ae_false_eq]
  exact ⟨rfl, rfl, rfl, rfl, rfl,
    fun eng env sym => run_entry_eq_buy_count eng env sym⟩

theorem has_scaleout_ite (c : Prop) [Decidable c] (T T' : List Trade) (k : Int) :
    _has_working_scaleout_sell (if c then T else T') k
      = if c then _has_working_scaleout_sell T k
        else _has_working_scaleout_sell T' k := by
  split <;> rfl

theorem has_scaleout_append (T E : List Trade) (k : Int) :
    _has_working_scaleout_sell (T ++ E) k
      = (_has_working_scaleout_sell T k || _has_working_scaleout_sell E k) := by
  simp [_has_working_scaleout_sell, _open_trades_for_conid,
    List.filter_append, List.any_append]

theorem has_scaleout_stp_single (n : Nat) (k qty : Int) (sp : ℚ) :
    _has_working_scaleout_sell
      [{ orderId := n, conId := k, status := "Submitted",
         order := { action := "SELL", orderType := "STP", totalQuantity := qty,
                    auxPrice := some sp, outsideRth := true } }] k = false := by
  simp [_has_working_scaleout_sell, _open_trades_for_conid, isWorkingStatus]

theorem pm_position_step_scaleout_count (cfg : RiskConfig)
    (marks : Int → Option ℚ) (rth ae : Bool) (s : PMState) (p : Position) :
    (pm_position_step cfg marks rth ae s p).submitted.countP is_scaleout_shape
      = s.submitted.countP is_scaleout_shape +
        (if (pm_fires_tp1 marks s.trades p && ae) = true then 1 else 0) := by
  cases ae
  · rw [pm_position_step_ae_false_eq]
    simp
  · unfold pm_position_step
    by_cases hq : p.position ≤ 0
    · rw [if_pos hq]
      simp [pm_fires_tp1, decide_eq_true hq]
    · rw [if_neg hq]
      have hqd := decide_eq_false hq
      cases hr : pm_ret_pct marks p with
      | none => simp [pm_fires_tp1, hr]
      | some ret =>
          obtain ⟨m, hm, hm0⟩ := pm_ret_pct_some_mark marks p ret hr
          have htp : pm_fires_tp1 marks s.trades p =
              (decide ((1 : ℚ) ≤ ret) && decide (2 ≤ p.position) &&
                !_has_working_scaleout_sell s.trades p.conId) := by
            simp only [pm_fires_tp1, hqd, hr, Bool.not_false, Bool.true_and]
          rw [htp]
          dsimp only [pm_branch]
          cases rth <;>
          · simp only [place_breakeven_stop, place_sell_scaleout_1,
              place_trailing_stop, hm, Bool.not_true, Bool.not_false,
              Bool.false_eq_true, eq_self_iff_true, if_false, if_true,
              if_neg hm0]
            dsimp only [apply_place, submit]
            simp only [trades_ite, ite_self, has_scaleout_ite,
              has_scaleout_append, has_scaleout_stp_single, Bool.or_false,
              Bool.and_true]
            split_ifs <;>
              simp [List.countP_append, List.countP_cons, is_scaleout_shape]

/-- Claim C7. A position holding exactly one share never receives a
scale-out sell from a position-management step, whatever its return; and
whenever a step does submit a scale-out sell, the held quantity was ≥ 2,
the return was ≥ 1.0 %, no working scale-out sell existed for the
instrument, and exits were allowed. -/
theorem scaleout_guard (cfg : RiskConfig) (marks : Int → Option ℚ)
    (rth ae : Bool) (s : PMState) (p : Position) :
    (p.position = 1 →
      (pm_position_step cfg marks rth ae s p).submitted.countP is_scaleout_shape
        = s.submitted.countP is_scaleout_shape)
    ∧ (s.submitted.countP is_scaleout_shape <
        (pm_position_step cfg marks rth ae s p).submitted.countP is_scaleout_shape →
       2 ≤ p.position ∧ (∃ r, pm_ret_pct marks p = some r ∧ 1 ≤ r) ∧
         _has_working_scaleout_sell s.trades p.conId = false ∧ ae = true) := by
  constructor
  · intro h1
    rw [pm_position_step_scaleout_count]
    have hfires : pm_fires_tp1 marks s.trades p = false := by
      simp [pm_fires_tp1, h1]
    simp [hfires]
  · intro hlt
    rw [pm_position_step_scaleout_count] at hlt
    by_cases hc : (pm_fires_tp1 marks s.trades p && ae) = true
    · rw [Bool.and_eq_true] at hc
      obtain ⟨hf, hae⟩ := hc
      simp only [pm_fires_tp1, Bool.and_eq_true] at hf
      obtain ⟨⟨⟨hq, hM⟩, h2q⟩, hhas⟩ := hf
      refine ⟨of_decide_eq_true h2q, ?_, ?_, hae⟩
      · cases hr : pm_ret_pct marks p with
        | none => rw [hr] at hM; cases hM
        | some r => rw [hr] at hM; exact ⟨r, rfl, of_decide_eq_true hM⟩
      · simpa using hhas
    · rw [if_neg hc] at hlt
      simp at hlt

/-- Witness for C7 at the spec's own numbers: a one-share position with a
5 % unrealized return receives no scale-out. -/
theorem scaleout_guard_witness :
    (pm_position_step {} (fun _ => some 105) true true pm_state_c7
        ⟨9, 1, 100⟩).submitted.countP is_scaleout_shape
      = pm_state_c7.submitted.countP is_scaleout_shape :=
  (scaleout_guard {} (fun _ => some 105) true true pm_state_c7 ⟨9, 1, 100⟩).1 rfl

theorem load_latest_signal_none_of_all_false (store : List SignalRow)
    (sym : String) (h : ∀ r ∈ store, r.symbol = sym → r.trade_signal = false) :
    load_latest_signal store sym = none := by
  unfold load_latest_signal
  have hfil : store.filter (fun r => r.symbol == sym && r.trade_signal) = [] := by
    rw [List.filter_eq_nil_iff]
    intro r hr
    by_cases hsym : r.symbol = sym
    · simp [hsym, h r hr hsym]
    · simp [hsym]
  rw [hfil]
  rfl

/-- Counterexample to C3 as stated: in `env_c3` the signal row's
instrument id is unresolvable, a denial the claim says is terminal only
for the entry; but the run returns early without reaching the
position-management pass, leaving the open position on instrument 9
without a trailing-stop safety net — nothing at all is submitted. -/
theorem run_denial_skips_pm_counterexample :
    (run {} env_c3 "AAPL").pm_ran = false
    ∧ (run {} env_c3 "AAPL").submitted = [] := by
  constructor <;>
    norm_num [run, run_prelude, env_c3, load_latest_signal, latest_upd,
      init_state, enforce_daily_loss_killswitch, close_all_stock_positions,
      buying_power_of, acct_get, build_acct, engine_allow_exits,
      open_entry_trades_of, min_age_gate_hit, _already_long_conid,
      isWorkingStatus, _is_entry_order_trade, entry_stage, pm_finish]

/-- Amended claim C3. When the gate denies because no signal row is
selected (no row at all, or every row for the symbol has
`tradeSignal = false`), the denial is indeed terminal only for the entry
and position management still runs; but when a signal row is selected and
its instrument id is unresolvable, or the preflight price is missing or
non-positive, or the preflight risk check denies, `run` returns early and
the position-management pass is skipped for that cycle. -/
theorem run_denial_pm_amended (eng : Engine) (env : Env) (sym : String) :
    (load_latest_signal env.store sym = none → (run eng env sym).pm_ran = true)
    ∧ ((∀ r ∈ env.store, r.symbol = sym → r.trade_signal = false) →
        (run eng env sym).pm_ran = true)
    ∧ (∀ row, load_latest_signal env.store sym = some row → row.con_id = none →
        (run eng env sym).pm_ran = false)
    ∧ (∀ row cid, load_latest_signal env.store sym = some row →
        row.con_id = some cid →
        _already_long_conid env.positions cid = false →
        (run_prelude eng env).2.1 = true → env.marks cid = none →
        (run eng env sym).pm_ran = false)
    ∧ (∀ row cid px, load_latest_signal env.store sym = some row →
        row.con_id = some cid →
        _already_long_conid env.positions cid = false →
        (run_prelude eng env).2.1 = true → env.marks cid = some px → ¬px ≤ 0 →
        (run_prelude eng env).2.2 < preflight_dollar_risk eng.risk px →
        (run eng env sym).pm_ran = false) := by
  refine ⟨?_, ?_, ?_, ?_, ?_⟩
  · intro h
    simp only [run]
    rw [h]
    rfl
  · intro h
    simp only [run]
    rw [load_latest_signal_none_of_all_false env.store sym h]
    rfl
  · intro row h1 h2
    simp only [run]
    rw [h1]
    dsimp only
    rw [h2]
  · intro row cid h1 h2 hlong hallow hmk
    simp only [run]
    rw [h1]
    dsimp only
    rw [h2]
    dsimp only
    unfold entry_stage
    rw [hlong, hallow, hmk]
    rfl
  · intro row cid px h1 h2 hlong hallow hmk hp0 hrisk
    simp only [run]
    rw [h1]
    dsimp only
    rw [h2]
    dsimp only
    unfold entry_stage
    rw [hlong, hallow, hmk]
    simp only [Bool.false_eq_true, if_false, Bool.not_true, if_neg hp0,
      if_pos hrisk]
    rfl

/-- Witness for C3 (amended): for symbol "MSFT", which has no signal row
in `env_c3`, the gate denies yet the position-management pass still runs. -/
theorem run_denial_pm_amended_witness :
    (run {} env_c3 "MSFT").pm_ran = true :=
  (run_denial_pm_amended {} env_c3 "MSFT").1 rfl

theorem latest_upd_ne_none (acc : Option SignalRow) (r : SignalRow) :
    latest_upd acc r ≠ none := by
  cases acc with
  | none => simp [latest_upd]
  | some b =>
      simp only [latest_upd]
      split <;> simp

theorem latest_upd_fold_none (l : List SignalRow) :
    ∀ acc, l.foldl latest_upd acc = none → l = [] ∧ acc = none := by
  induction l with
  | nil => intro acc h; exact ⟨rfl, h⟩
  | cons r rest ih =>
      intro acc h
      have h2 := (ih (latest_upd acc r) h).2
      exact absurd h2 (latest_upd_ne_none acc r)

theorem latest_upd_fold_spec (l : List SignalRow) :
    ∀ (acc : Option SignalRow) (b : SignalRow), l.foldl latest_upd acc = some b →
      (b ∈ l ∨ acc = some b)
      ∧ (∀ r ∈ l, r.timestamp ≤ b.timestamp)
      ∧ (∀ a, acc = some a → a.timestamp ≤ b.timestamp) := by
  induction l with
  | nil =>
      intro acc b h
      refine ⟨Or.inr h, by simp, fun a ha => ?_⟩
      rw [ha] at h
      cases h
      exact le_refl _
  | cons r rest ih =>
      intro acc b h
      obtain ⟨hmem, hmax, hacc⟩ := ih (latest_upd acc r) b h
      have hstep : ∀ c, latest_upd acc r = some c →
          r.timestamp ≤ c.timestamp ∧ (c = r ∨ acc = some c) := by
        intro c hc
        cases acc with
        | none =>
            simp only [latest_upd] at hc
            cases hc
            exact ⟨le_refl _, Or.inl rfl⟩
        | some a =>
            simp only [latest_upd] at hc
            by_cases hts : a.timestamp < r.timestamp
            · rw [if_pos hts] at hc
              cases hc
              exact ⟨le_refl _, Or.inl rfl⟩
            · rw [if_neg hts] at hc
              cases hc
              exact ⟨le_of_not_lt hts, Or.inr rfl⟩
      have hupd : ∃ c, latest_upd acc r = some c := by
        cases hu : latest_upd acc r with
        | none => exact absurd hu (latest_upd_ne_none acc r)
        | some c => exact ⟨c, rfl⟩
      obtain ⟨c, hc⟩ := hupd
      have hcb : c.timestamp ≤ b.timestamp := hacc c hc
      obtain ⟨hrc, hcsrc⟩ := hstep c hc
      constructor
      · rcases hmem with hb | hb
        · exact Or.inl (List.mem_cons_of_mem r hb)
        · obtain ⟨_, hcsrc'⟩ := hstep b hb
          rcases hcsrc' with hbr | hba
          · exact Or.inl (hbr ▸ List.mem_cons_self r rest)
          · exact Or.inr hba
      refine ⟨?_, ?_⟩
      · intro x hx
        rcases List.mem_cons.mp hx with hxr | hx'
        · rw [hxr]
          exact le_trans hrc hcb
        · exact hmax x hx'
      · intro a ha
        rcases hcsrc with hcr | hca
        · -- c = r: then latest_upd (some a) r = some r means a.ts ≤ r.ts
          subst hcr
          cases ha
          simp only [latest_upd] at hc
          by_cases hts : a.timestamp < c.timestamp
          · exact le_trans (le_of_lt hts) hcb
          · rw [if_neg hts] at hc
            cases hc
            exact hcb
        · rw [ha] at hca
          cases hca
          exact hcb

/-- Amended claim C8. `load_latest_signal` reads the most recent row among
the rows for the symbol with `tradeSignal = true`: it returns none exactly
when no such row exists (only then does the signal-presence gate deny),
and any returned row is a true-signal row for the symbol with maximal
timestamp among true-signal rows — a more recent row with
`tradeSignal = false` does not suppress an older true signal. -/
theorem load_latest_signal_latest_true_row (store : List SignalRow)
    (sym : String) :
    (load_latest_signal store sym = none →
       ∀ r ∈ store, r.symbol = sym → r.trade_signal = false)
    ∧ (∀ b, load_latest_signal store sym = some b →
        b ∈ store ∧ b.symbol = sym ∧ b.trade_signal = true ∧
          ∀ r ∈ store, r.symbol = sym → r.trade_signal = true →
            r.timestamp ≤ b.timestamp) := by
  constructor
  · intro h r hr hsym
    by_contra hts
    have hts' : r.trade_signal = true := by
      cases hcs : r.trade_signal
      · exact absurd hcs hts
      · rfl
    have hrf : r ∈ store.filter fun x => x.symbol == sym && x.trade_signal := by
      rw [List.mem_filter]
      exact ⟨hr, by simp [hsym, hts']⟩
    have := (latest_upd_fold_none _ none h).1
    rw [this] at hrf
    cases hrf
  · intro b hb
    obtain ⟨hmem, hmax, _⟩ := latest_upd_fold_spec _ none b hb
    rcases hmem with hbf | hbn
    · rw [List.mem_filter] at hbf
      obtain ⟨hbs, hcond⟩ := hbf
      simp only [Bool.and_eq_true, beq_iff_eq] at hcond
      refine ⟨hbs, hcond.1, hcond.2, ?_⟩
      intro r hr hrsym hrts
      refine hmax r ?_
      rw [List.mem_filter]
      exact ⟨hr, by simp [hrsym, hrts]⟩
    · cases hbn

/-- Witness for C8 (amended): on `store_c8` the selected row is the older
true-signal row at timestamp 1, which the theorem certifies to be a
true-signal row for "XYZ" of maximal timestamp among true rows. -/
theorem load_latest_signal_latest_true_row_witness :
    (⟨"XYZ", 1, true, some 777⟩ : SignalRow) ∈ store_c8
    ∧ (⟨"XYZ", 1, true, some 777⟩ : SignalRow).trade_signal = true := by
  have h := (load_latest_signal_latest_true_row store_c8 "XYZ").2
    ⟨"XYZ", 1, true, some 777⟩ rfl
  exact ⟨h.1, h.2.2.1⟩

/-- Counterexample to C8 as stated: in `store_c8` the most recent row for
"XYZ" has `tradeSignal = false`, yet the engine selects the older
true-signal row and the run submits an entry — the gate does not deny. -/
theorem latest_false_row_counterexample :
    latest_row_for_symbol store_c8 "XYZ" = some ⟨"XYZ", 2, false, some 777⟩
    ∧ load_latest_signal store_c8 "XYZ" = some ⟨"XYZ", 1, true, some 777⟩
    ∧ (run {} env_c8 "XYZ").stats.entry = 1 := by
  refine ⟨rfl, rfl, ?_⟩
  norm_num +decide [run, run_prelude, entry_stage, entry_placement,
    pm_finish, pm_pass, load_latest_signal, latest_upd, init_state,
    enforce_daily_loss_killswitch, buying_power_of, acct_get, build_acct,
    engine_allow_exits, open_entry_trades_of, min_age_gate_hit,
    _already_long_conid, isWorkingStatus, _is_entry_order_trade,
    place_buy_entry, place_trailing_stop, apply_place, submit,
    _has_working_trailing_sell, preflight_dollar_risk, env_c8, store_c8]

/-- Counterexample to C2 as stated: a broker exception raised by
`connect()` inside the first symbol's run propagates out of `run` (whose
`try`/`finally` has no `except`) and aborts the whole `main_execution`
batch — the second symbol is never processed. -/
theorem run_exception_aborts_batch_counterexample :
    main_execution_E {}
      [("AAPL", { base := env_c2, connect_err := some "ConnectionRefusedError" }),
       ("MSFT", { base := env_c2 })]
      = .error "ConnectionRefusedError" := rfl

/-- Amended claim C2. `run` emits exactly one summary line per invocation
even when an exception escapes (the `finally`), a no-failure run returns
normally, per-position failures inside the position-management loop are
caught, counted and do not stop the loop; but an exception from a
top-level broker call (`connect`, `accountSummary`, `trades`, `positions`)
propagates out of `run` to the caller. -/
theorem run_exception_amended :
    (∀ (eng : Engine) (envE : EnvE) (sym : String), (runE eng envE sym).2 = 1)
    ∧ (∀ (eng : Engine) (envE : EnvE) (sym : String) (e : String),
        envE.connect_err = some e → (runE eng envE sym).1 = .error e)
    ∧ (∀ (eng : Engine) (envE : EnvE) (sym : String),
        envE.connect_err = none → envE.acct_err = none →
        envE.trades_err = none → envE.positions_err = none →
        (runE eng envE sym).1 = .ok (run eng envE.base sym))
    ∧ (∀ (cfg : RiskConfig) (marks : Int → Option ℚ) (rth ae : Bool)
        (fail : Position → Option String) (s : PMState) (ps : List Position),
        (∀ p, fail p = none) →
        pm_pass_E cfg marks rth ae fail s ps = pm_pass cfg marks rth ae s ps)
    ∧ (∀ (cfg : RiskConfig) (marks : Int → Option ℚ) (rth ae : Bool)
        (fail : Position → Option String) (s : PMState)
        (ps1 : List Position) (p : Position) (ps2 : List Position) (e : String),
        fail p = some e →
        pm_pass_E cfg marks rth ae fail s (ps1 ++ p :: ps2) =
          pm_pass_E cfg marks rth ae fail
            { pm_pass_E cfg marks rth ae fail s ps1 with stats :=
              { (pm_pass_E cfg marks rth ae fail s ps1).stats with errs :=
                (pm_pass_E cfg marks rth ae fail s ps1).stats.errs + 1 } }
            ps2) := by
  refine ⟨fun _ _ _ => rfl, ?_, ?_, ?_, ?_⟩
  · intro eng envE sym e h
    simp [runE, run_body_E, h]
  · intro eng envE sym h1 h2 h3 h4
    simp [runE, run_body_E, h1, h2, h3, h4]
  · intro cfg marks rth ae fail s ps h
    induction ps generalizing s with
    | nil => rfl
    | cons p rest ih =>
        show List.foldl _ _ (p :: rest) = List.foldl _ _ (p :: rest)
        simp only [List.foldl_cons]
        rw [h p]
        exact ih _
  · intro cfg marks rth ae fail s ps1 p ps2 e h
    show List.foldl _ _ (ps1 ++ p :: ps2) = _
    rw [List.foldl_append, List.foldl_cons]
    rw [h]
    rfl

/-- Witness for C2 (amended): a concrete injected `connect` failure is
returned as the run's outcome (the exception reaches the caller) while
exactly one summary line is emitted. -/
theorem run_exception_amended_witness :
    (runE {} { base := env_c2, connect_err := some "boom" } "AAPL").1
      = .error "boom"
    ∧ (runE {} { base := env_c2, connect_err := some "boom" } "AAPL").2 = 1 :=
  ⟨run_exception_amended.2.1 {} { base := env_c2, connect_err := some "boom" }
      "AAPL" "boom" rfl,
    run_exception_amended.1 {} { base := env_c2, connect_err := some "boom" }
      "AAPL"⟩

/-! Classifier algebra used for the idempotency claim: how each
"has a working order of kind K" predicate behaves under appending newly
submitted trades. -/

theorem has_be_append (T E : List Trade) (k : Int) :
    _has_working_breakeven_stop (T ++ E) k
      = (_has_working_breakeven_stop T k || _has_working_breakeven_stop E k) := by
  simp [_has_working_breakeven_stop, _open_trades_for_conid,
    List.filter_append, List.any_append]

theorem has_trail_append (T E : List Trade) (k : Int) :
    _has_working_trailing_sell (T ++ E) k
      = (_has_working_trailing_sell T k || _has_working_trailing_sell E k) := by
  simp [_has_working_trailing_sell, List.any_append]

theorem has_be_single (n : Nat) (k : Int) (st : String) (o : Order) :
    _has_working_breakeven_stop
        [{ orderId := n, conId := k, status := st, order := o }] k
      = (isWorkingStatus st &&
          (o.action == "SELL" && (o.orderType == "STP" || o.orderType == "STOP"))) := by
  simp only [_has_working_breakeven_stop, _open_trades_for_conid,
    List.filter_cons, List.filter_nil]
  cases hw : isWorkingStatus st <;> simp [hw]

theorem has_scaleout_single (n : Nat) (k : Int) (st : String) (o : Order) :
    _has_working_scaleout_sell
        [{ orderId := n, conId := k, status := st, order := o }] k
      = (isWorkingStatus st &&
          (o.action == "SELL" && (o.orderType == "MKT" || o.orderType == "LMT"))) := by
  simp only [_has_working_scaleout_sell, _open_trades_for_conid,
    List.filter_cons, List.filter_nil]
  cases hw : isWorkingStatus st <;> simp [hw]

theorem has_trail_single (n : Nat) (k : Int) (st : String) (o : Order) :
    _has_working_trailing_sell
        [{ orderId := n, conId := k, status := st, order := o }] k
      = (isWorkingStatus st && o.orderType == "TRAIL" && o.action == "SELL") := by
  simp [_has_working_trailing_sell]

theorem has_be_nil (k : Int) : _has_working_breakeven_stop [] k = false := rfl

theorem has_scaleout_nil (k : Int) : _has_working_scaleout_sell [] k = false := rfl

theorem has_trail_nil (k : Int) : _has_working_trailing_sell [] k = false := rfl

theorem has_be_cons (t : Trade) (rest : List Trade) (k : Int) :
    _has_working_breakeven_stop (t :: rest) k
      = ((t.conId == k && isWorkingStatus t.status) &&
          (t.order.action == "SELL" &&
            (t.order.orderType == "STP" || t.order.orderType == "STOP"))
         || _has_working_breakeven_stop rest k) := by
  simp only [_has_working_breakeven_stop, _open_trades_for_conid,
    List.filter_cons]
  cases hc : (t.conId == k && isWorkingStatus t.status) <;> simp [hc]

theorem has_scaleout_cons (t : Trade) (rest : List Trade) (k : Int) :
    _has_working_scaleout_sell (t :: rest) k
      = ((t.conId == k && isWorkingStatus t.status) &&
          (t.order.action == "SELL" &&
            (t.order.orderType == "MKT" || t.order.orderType == "LMT"))
         || _has_working_scaleout_sell rest k) := by
  simp only [_has_working_scaleout_sell, _open_trades_for_conid,
    List.filter_cons]
  cases hc : (t.conId == k && isWorkingStatus t.status) <;> simp [hc]

theorem has_trail_cons (t : Trade) (rest : List Trade) (k : Int) :
    _has_working_trailing_sell (t :: rest) k
      = ((isWorkingStatus t.status && t.order.orderType == "TRAIL" &&
          t.order.action == "SELL" && t.conId == k)
         || _has_working_trailing_sell rest k) := by
  simp [_has_working_trailing_sell]

theorem pm_fires_be_append_false (marks : Int → Option ℚ) (T E : List Trade)
    (p : Position) (h : pm_fires_be marks T p = false) :
    pm_fires_be marks (T ++ E) p = false := by
  unfold pm_fires_be at h ⊢
  rw [has_be_append]
  by_cases hT : _has_working_breakeven_stop T p.conId = true
  · simp [hT]
  · rw [Bool.not_eq_true] at hT
    rw [hT] at h
    simp only [Bool.not_false, Bool.and_true] at h
    simp only [hT, Bool.false_or, h, Bool.false_and]

theorem pm_fires_tp1_append_false (marks : Int → Option ℚ) (T E : List Trade)
    (p : Position) (h : pm_fires_tp1 marks T p = false) :
    pm_fires_tp1 marks (T ++ E) p = false := by
  unfold pm_fires_tp1 at h ⊢
  rw [has_scaleout_append]
  by_cases hT : _has_working_scaleout_sell T p.conId = true
  · simp [hT]
  · rw [Bool.not_eq_true] at hT
    rw [hT] at h
    simp only [Bool.not_false, Bool.and_true] at h
    simp only [hT, Bool.false_or, h, Bool.false_and]

theorem pm_fires_trail_append_false (marks : Int → Option ℚ) (T E : List Trade)
    (p : Position) (h : pm_fires_trail marks T p = false) :
    pm_fires_trail marks (T ++ E) p = false := by
  unfold pm_fires_trail at h ⊢
  rw [has_trail_append]
  by_cases hT : _has_working_trailing_sell T p.conId = true
  · simp [hT]
  · rw [Bool.not_eq_true] at hT
    rw [hT] at h
    simp only [Bool.not_false, Bool.and_true] at h
    simp only [hT, Bool.false_or, h, Bool.false_and]

theorem covered_append (marks : Int → Option ℚ) (ae : Bool) (T E : List Trade)
    (p : Position)
    (hbe : (pm_fires_be marks T p && ae) = false)
    (htp : (pm_fires_tp1 marks T p && ae) = false)
    (htr : (pm_fires_trail marks T p && ae) = false) :
    (pm_fires_be marks (T ++ E) p && ae) = false
    ∧ (pm_fires_tp1 marks (T ++ E) p && ae) = false
    ∧ (pm_fires_trail marks (T ++ E) p && ae) = false := by
  cases ae
  · simp
  · simp only [Bool.and_true] at *
    exact ⟨pm_fires_be_append_false marks T E p hbe,
      pm_fires_tp1_append_false marks T E p htp,
      pm_fires_trail_append_false marks T E p htr⟩

theorem step_no_change_of_covered (cfg : RiskConfig) (marks : Int → Option ℚ)
    (rth ae : Bool) (s : PMState) (p : Position)
    (hbe : (pm_fires_be marks s.trades p && ae) = false)
    (htp : (pm_fires_tp1 marks s.trades p && ae) = false)
    (htr : (pm_fires_trail marks s.trades p && ae) = false) :
    (pm_position_step cfg marks rth ae s p).trades = s.trades
    ∧ (pm_position_step cfg marks rth ae s p).submitted = s.submitted := by
  cases ae
  · rw [pm_position_step_ae_false_eq]
    exact ⟨rfl, rfl⟩
  · simp only [Bool.and_true] at hbe htp htr
    unfold pm_position_step
    by_cases hq : p.position ≤ 0
    · rw [if_pos hq]
      exact ⟨rfl, rfl⟩
    · rw [if_neg hq]
      have hqd := decide_eq_false hq
      cases hr : pm_ret_pct marks p with
      | none => exact ⟨rfl, rfl⟩
      | some ret =>
          have hbe' : (decide ((1 : ℚ) / 2 ≤ ret) &&
              !_has_working_breakeven_stop s.trades p.conId) = false := by
            rw [← hbe]
            simp only [pm_fires_be, hqd, hr, Bool.not_false, Bool.true_and]
          have htp' : (decide ((1 : ℚ) ≤ ret) && decide (2 ≤ p.position) &&
              !_has_working_scaleout_sell s.trades p.conId) = false := by
            rw [← htp]
            simp only [pm_fires_tp1, hqd, hr, Bool.not_false, Bool.true_and]
          have htr' : (!_has_working_trailing_sell s.trades p.conId) = false := by
            rw [← htr]
            simp only [pm_fires_trail, hqd, hr, Bool.not_false, Bool.true_and,
              Option.isSome_some, Bool.and_true]
          dsimp only [pm_branch]
          simp only [hbe', Bool.false_eq_true, if_false, htp', htr']
          constructor <;> trivial

theorem step_covers (cfg : RiskConfig) (marks : Int → Option ℚ)
    (rth ae : Bool) (s : PMState) (p : Position) :
    (pm_fires_be marks (pm_position_step cfg marks rth ae s p).trades p && ae)
        = false
    ∧ (pm_fires_tp1 marks (pm_position_step cfg marks rth ae s p).trades p && ae)
        = false
    ∧ (pm_fires_trail marks (pm_position_step cfg marks rth ae s p).trades p && ae)
        = false := by
  cases ae
  · simp
  · simp only [Bool.and_true]
    unfold pm_position_step
    by_cases hq : p.position ≤ 0
    · rw [if_pos hq]
      have hqd := decide_eq_true hq
      simp [pm_fires_be, pm_fires_tp1, pm_fires_trail, hqd]
    · rw [if_neg hq]
      have hqd := decide_eq_false hq
      cases hr : pm_ret_pct marks p with
      | none => simp [pm_fires_be, pm_fires_tp1, pm_fires_trail, hr]
      | some ret =>
          obtain ⟨m, hm, hm0⟩ := pm_ret_pct_some_mark marks p ret hr
          dsimp only [pm_branch]
          cases rth <;>
          · simp only [place_breakeven_stop, place_sell_scaleout_1,
              place_trailing_stop, hm, Bool.not_true, Bool.not_false,
              Bool.false_eq_true, eq_self_iff_true, if_false, if_true,
              if_neg hm0]
            dsimp only [apply_place, submit]
            simp only [trades_ite, ite_self]
            split_ifs <;>
              simp_all [pm_fires_be, pm_fires_tp1, pm_fires_trail,
                has_be_append, has_scaleout_append, has_trail_append,
                has_be_cons, has_scaleout_cons, has_trail_cons,
                has_be_nil, has_scaleout_nil, has_trail_nil,
                isWorkingStatus, hr]

theorem pm_pass_cons (cfg : RiskConfig) (marks : Int → Option ℚ)
    (rth ae : Bool) (s : PMState) (p : Position) (ps : List Position) :
    pm_pass cfg marks rth ae s (p :: ps)
      = pm_pass cfg marks rth ae (pm_position_step cfg marks rth ae s p) ps := rfl

theorem append_extend_trans {A B C : List Trade}
    (h1 : ∃ E, B = A ++ E) (h2 : ∃ E, C = B ++ E) : ∃ E, C = A ++ E := by
  obtain ⟨E1, rfl⟩ := h1
  obtain ⟨E2, rfl⟩ := h2
  exact ⟨E1 ++ E2, List.append_assoc _ _ _⟩

theorem pm_branch_trades_extend (f : Bool) (i : RunStats → RunStats) (c : Int)
    (pr : PlaceResult) (s : PMState) :
    ∃ E, (pm_branch f i c pr s).trades = s.trades ++ E := by
  cases f
  · exact ⟨[], by simp [pm_branch]⟩
  · cases pr with
    | placed o => exact ⟨_, rfl⟩
    | skip_no_price => exact ⟨[], by simp [pm_branch, apply_place]⟩
    | skip_allow => exact ⟨[], by simp [pm_branch, apply_place]⟩

theorem pm_position_step_trades_extend (cfg : RiskConfig)
    (marks : Int → Option ℚ) (rth ae : Bool) (s : PMState) (p : Position) :
    ∃ E, (pm_position_step cfg marks rth ae s p).trades = s.trades ++ E := by
  unfold pm_position_step
  by_cases hq : p.position ≤ 0
  · rw [if_pos hq]
    exact ⟨[], by simp⟩
  · rw [if_neg hq]
    cases hr : pm_ret_pct marks p with
    | none => exact ⟨[], by simp⟩
    | some ret =>
        exact append_extend_trans
          (append_extend_trans (pm_branch_trades_extend _ _ _ _ _)
            (pm_branch_trades_extend _ _ _ _ _))
          (pm_branch_trades_extend _ _ _ _ _)

theorem pm_pass_trades_extend (cfg : RiskConfig) (marks : Int → Option ℚ)
    (rth ae : Bool) (ps : List Position) :
    ∀ s, ∃ E, (pm_pass cfg marks rth ae s ps).trades = s.trades ++ E := by
  induction ps with
  | nil => exact fun s => ⟨[], by simp [pm_pass]⟩
  | cons p rest ih =>
      intro s
      rw [pm_pass_cons]
      exact append_extend_trans
        (pm_position_step_trades_extend cfg marks rth ae s p)
        (ih (pm_position_step cfg marks rth ae s p))

theorem pm_pass_covers (cfg : RiskConfig) (marks : Int → Option ℚ)
    (rth ae : Bool) (ps : List Position) :
    ∀ s p, p ∈ ps →
      (pm_fires_be marks (pm_pass cfg marks rth ae s ps).trades p && ae) = false
      ∧ (pm_fires_tp1 marks (pm_pass cfg marks rth ae s ps).trades p && ae) = false
      ∧ (pm_fires_trail marks (pm_pass cfg marks rth ae s ps).trades p && ae)
          = false := by
  induction ps with
  | nil => intro s p hp; cases hp
  | cons q rest ih =>
      intro s p hp
      rw [pm_pass_cons]
      rcases List.mem_cons.mp hp with hpq | hp'
      · subst hpq
        obtain ⟨E, hE⟩ := pm_pass_trades_extend cfg marks rth ae rest
          (pm_position_step cfg marks rth ae s p)
        have hc := step_covers cfg marks rth ae s p
        rw [hE]
        exact covered_append marks ae _ E p hc.1 hc.2.1 hc.2.2
      · exact ih (pm_position_step cfg marks rth ae s q) p hp'

theorem pm_pass_no_change_of_covered (cfg : RiskConfig)
    (marks : Int → Option ℚ) (rth ae : Bool) (ps : List Position) :
    ∀ s, (∀ p ∈ ps,
        (pm_fires_be marks s.trades p && ae) = false
        ∧ (pm_fires_tp1 marks s.trades p && ae) = false
        ∧ (pm_fires_trail marks s.trades p && ae) = false) →
      (pm_pass cfg marks rth ae s ps).trades = s.trades
      ∧ (pm_pass cfg marks rth ae s ps).submitted = s.submitted := by
  induction ps with
  | nil => exact fun s _ => ⟨rfl, rfl⟩
  | cons q rest ih =>
      intro s h
      have hq := h q (List.mem_cons_self q rest)
      have hstep := step_no_change_of_covered cfg marks rth ae s q
        hq.1 hq.2.1 hq.2.2
      rw [pm_pass_cons]
      have hrest := ih (pm_position_step cfg marks rth ae s q)
        (fun p hp => by rw [hstep.1]; exact h p (List.mem_cons_of_mem q hp))
      exact ⟨hrest.1.trans hstep.1, hrest.2.trans hstep.2⟩

/-- Claim C1. Running the position-management pass a second time,
immediately after a first pass whose submissions have landed in the
broker's trade list as working orders and with the broker snapshot
otherwise unchanged (same positions, same marks, no fills or
cancellations), submits nothing at all: no additional breakeven stop, no
additional scale-out sell and no additional trailing stop for any
instrument, because the classifier predicates now see the first pass's
working orders. The trade list itself also stays exactly as the first
pass left it. -/
theorem pm_pass_idempotent (cfg : RiskConfig) (marks : Int → Option ℚ)
    (rth ae : Bool) (s : PMState) (ps : List Position) :
    (pm_pass cfg marks rth ae (pm_pass cfg marks rth ae s ps) ps).submitted
      = (pm_pass cfg marks rth ae s ps).submitted
    ∧ (pm_pass cfg marks rth ae (pm_pass cfg marks rth ae s ps) ps).trades
      = (pm_pass cfg marks rth ae s ps).trades := by
  have h := pm_pass_no_change_of_covered cfg marks rth ae ps
    (pm_pass cfg marks rth ae s ps)
    (fun p hp => pm_pass_covers cfg marks rth ae ps s p hp)
  exact ⟨h.2, h.1⟩

end IBKRExec
